import Mathlib

/-!
Verification development for the konik audio player.

The definitions below are shallow embeddings of the Rust sources:
`src/cue.rs` (CUE sheets and their factory), `src/symphonia_stream.rs`
(the packet stream), `src/decoder.rs` (the decoder and its ring buffer),
`src/player.rs` (the player engine loop) and `src/app.rs` (the
controller's scrobbling logic).  Rust `Duration` values are embedded as
nonnegative rationals, `f32` samples as rationals, Rust strings as lists
of bytes (each `< 256`), and fallible functions as `Except`/`Option`.
-/

namespace Konik

/-- Truncated (saturating) subtraction on rationals, embedding
`Duration::saturating_sub` (a `Duration` is never negative). -/
def satSub (a b : Rat) : Rat := max (a - b) 0

/-- A Rust string viewed as its UTF-8 bytes (`str::len` counts bytes,
`&s[i..]` slices bytes). -/
abbrev ByteStr := List Nat

/-- ASCII lower-casing of one byte, as in `u8::to_ascii_lowercase`. -/
def asciiToLower (b : Nat) : Nat :=
  if 65 ≤ b ∧ b ≤ 90 then b + 32 else b

/-- `str::eq_ignore_ascii_case`: equal lengths and byte-wise equality up
to ASCII case. -/
def eqIgnoreAsciiCase : ByteStr → ByteStr → Bool
  | [], [] => true
  | a :: as_, b :: bs => (asciiToLower a == asciiToLower b) && eqIgnoreAsciiCase as_ bs
  | _, _ => false

/-- The bytes of `".cue"`. -/
def dotCueBytes : ByteStr := [46, 99, 117, 101]

/-- Rust `str::is_char_boundary i` for an index `i < len`: the byte at
`i` is not a UTF-8 continuation byte. -/
def isCharBoundary (bs : ByteStr) (i : Nat) : Bool :=
  match bs[i]? with
  | some b => decide (b < 128 ∨ 192 ≤ b)
  | none => decide (i = bs.length)

/-- Embedding of `CueSheet::is_supported_file` (src/cue.rs:37).  The
Rust code takes `&filename[len - 4..]`, a byte slice that panics when
`len - 4` is not a character boundary; the panic is embedded as `none`. -/
def isSupportedFile (bs : ByteStr) : Option Bool :=
  let len := bs.length
  if len < 4 then
    some false
  else if isCharBoundary bs (len - 4) then
    some (eqIgnoreAsciiCase (bs.drop (len - 4)) dotCueBytes)
  else
    none

/-- Is `b` a UTF-8 continuation byte (`0x80..=0xBF`)? -/
def isContByte (b : Nat) : Bool := 128 ≤ b && b ≤ 191

/-- Standard UTF-8 well-formedness of a byte sequence (RFC 3629): every
Rust `String` satisfies this. -/
def utf8Valid : ByteStr → Bool
  | [] => true
  | b :: rest =>
    if b ≤ 127 then
      utf8Valid rest
    else if 194 ≤ b && b ≤ 223 then
      match rest with
      | c1 :: r => isContByte c1 && utf8Valid r
      | [] => false
    else if b = 224 then
      match rest with
      | c1 :: c2 :: r => (160 ≤ c1 && c1 ≤ 191) && isContByte c2 && utf8Valid r
      | _ => false
    else if 225 ≤ b && b ≤ 236 then
      match rest with
      | c1 :: c2 :: r => isContByte c1 && isContByte c2 && utf8Valid r
      | _ => false
    else if b = 237 then
      match rest with
      | c1 :: c2 :: r => (128 ≤ c1 && c1 ≤ 159) && isContByte c2 && utf8Valid r
      | _ => false
    else if 238 ≤ b && b ≤ 239 then
      match rest with
      | c1 :: c2 :: r => isContByte c1 && isContByte c2 && utf8Valid r
      | _ => false
    else if b = 240 then
      match rest with
      | c1 :: c2 :: c3 :: r =>
        (144 ≤ c1 && c1 ≤ 191) && isContByte c2 && isContByte c3 && utf8Valid r
      | _ => false
    else if 241 ≤ b && b ≤ 243 then
      match rest with
      | c1 :: c2 :: c3 :: r => isContByte c1 && isContByte c2 && isContByte c3 && utf8Valid r
      | _ => false
    else if b = 244 then
      match rest with
      | c1 :: c2 :: c3 :: r =>
        (128 ≤ c1 && c1 ≤ 143) && isContByte c2 && isContByte c3 && utf8Valid r
      | _ => false
    else
      false

/-- Spec-side phrasing for C10: the filename has at least four bytes and
its final four bytes compare case-insensitively equal to `".cue"`. -/
def endsWithDotCueCI (bs : ByteStr) : Prop :=
  4 ≤ bs.length ∧ (bs.drop (bs.length - 4)).map asciiToLower = dotCueBytes

instance endsWithDotCueCI.dec (bs : ByteStr) : Decidable (endsWithDotCueCI bs) := by
  unfold endsWithDotCueCI; infer_instance

/-- Track metadata (src/stream_base.rs:16, `TrackMeta`); the duration is
a nonnegative rational standing for the Rust `Duration`. -/
structure TrackMeta where
  artist : Option String
  album : Option String
  title : Option String
  track : Option Nat
  trackTotal : Option Nat
  disc : Option Nat
  discTotal : Option Nat
  year : Option Nat
  duration : Rat
deriving Repr, DecidableEq

/-- The all-`None` metadata (`TrackMeta::default()`). -/
def TrackMeta.default : TrackMeta :=
  ⟨none, none, none, none, none, none, none, none, 0⟩

/-- A playlist entry (src/stream_base.rs:9, `Track`): a source path and
an optional CUE virtual-track id. -/
structure Track where
  filename : ByteStr
  index : Option Nat
deriving Repr, DecidableEq

/-- One parsed CUE track (src/cue.rs:24, `CueTrack`). -/
structure CueTrack where
  index : Nat
  start : Rat
  duration : Option Rat
  meta : TrackMeta
deriving Repr, DecidableEq

/-- A parsed CUE sheet (src/cue.rs:31, `CueSheet`). -/
structure CueSheet where
  tracks : List CueTrack
  sourceFilename : ByteStr
deriving Repr, DecidableEq

/-- The scan inside `CueSheet::track_index_by_position` (src/cue.rs:258),
over the track list: walk the tracks from the last to the first and
return the id of the first one whose start is `≤ position`; fall back
to the first track's id.  (`CueSheet::new` never builds an empty sheet,
so the `getD 0` fallback is unreachable there and stands for the Rust
`expect`.) -/
def trackIndexScan (tracks : List CueTrack) (position : Rat) : Nat :=
  match tracks.reverse.find? (fun t => position ≥ t.start) with
  | some t => t.index
  | none => ((tracks.head?).map (·.index)).getD 0

namespace CueSheet

/-- Embedding of `CueSheet::track_index_by_position` (src/cue.rs:258). -/
def trackIndexByPosition (s : CueSheet) (position : Rat) : Nat :=
  trackIndexScan s.tracks position

/-- Embedding of `CueSheet::track` (src/cue.rs:176): lookup by CUE id. -/
def track? (s : CueSheet) (index : Nat) : Option CueTrack :=
  s.tracks.find? (fun t => t.index == index)

/-- Embedding of `CueSheet::track_start` (src/cue.rs:271). -/
def trackStart (s : CueSheet) (index : Nat) : Option Rat :=
  (s.track? index).map (·.start)

/-- `CueSheet::opt_def` (src/cue.rs:248). -/
def optDef {α : Type} (o1 o2 : Option α) : Option α :=
  match o1 with
  | some x => some x
  | none => o2

/-- Embedding of `CueSheet::track_meta` (src/cue.rs:278): overlay the
sheet's per-track values onto the file metadata. -/
def trackMeta (s : CueSheet) (index : Nat) (fileMeta : TrackMeta) : Option TrackMeta :=
  (s.track? index).map (fun track =>
    { duration := track.duration.getD (satSub fileMeta.duration track.start)
      album := optDef track.meta.album fileMeta.album
      title := optDef track.meta.title fileMeta.title
      artist := optDef track.meta.artist fileMeta.artist
      disc := optDef track.meta.disc fileMeta.disc
      discTotal := optDef track.meta.discTotal fileMeta.discTotal
      track := track.meta.track
      trackTotal := track.meta.trackTotal
      year := optDef track.meta.year fileMeta.year })

end CueSheet

/-- The memoizing factory (src/cue.rs:301, `CueFactory`): the Rust
`HashMap<String, Option<Arc<CueSheet>>>` is embedded as an association
list keyed by the path bytes. -/
structure CueFactory where
  sheets : List (ByteStr × Option CueSheet)
deriving Repr, DecidableEq

/-- `CueFactory::new`. -/
def CueFactory.empty : CueFactory := ⟨[]⟩

/-- `HashMap::get` on the embedded map. -/
def CueFactory.get (f : CueFactory) (path : ByteStr) : Option (Option CueSheet) :=
  (f.sheets.find? (fun kv => kv.1 == path)).map (·.2)

/-- `HashMap::insert` on the embedded map (the factory never inserts an
existing key twice, but the embedding keeps the newest binding first). -/
def CueFactory.insert (f : CueFactory) (path : ByteStr) (v : Option CueSheet) : CueFactory :=
  ⟨(path, v) :: f.sheets⟩

/-- Outcome of `CueFactory::get_or_new`: `panic` stands for the byte
slicing panic inside `is_supported_file`, `err` for the `bail!` on a
CUE parse failure. -/
inductive GetOrNewResult where
  | panic
  | err
  | ok (sheet : Option CueSheet)
deriving Repr, DecidableEq

/-- The environment of effects the CUE code performs: `parseCue` stands
for `CueSheet::new` (reading and parsing the CUE file and locating its
companion source file). -/
structure CueEnv where
  parseCue : ByteStr → Except Unit CueSheet

/-- Embedding of `CueFactory::get_or_new` (src/cue.rs:312).  The last
component counts how many times `CueSheet::new` ran (0 or 1), so that
re-parsing is observable.  Note the Rust code `bail!`s on a parse
failure before reaching the `insert`, so failures are never memoized. -/
def CueFactory.getOrNew (env : CueEnv) (f : CueFactory) (path : ByteStr) :
    GetOrNewResult × CueFactory × Nat :=
  match f.get path with
  | some cached => (.ok cached, f, 0)
  | none =>
    match isSupportedFile path with
    | none => (.panic, f, 0)
    | some false => (.ok none, f, 0)
    | some true =>
      match env.parseCue path with
      | .ok sheet => (.ok (some sheet), f.insert path (some sheet), 1)
      | .error _ => (.err, f, 1)

/-- Per-packet metadata (src/stream_base.rs:28, `StreamPacketMeta`). -/
structure StreamPacketMeta where
  channelsCount : Nat
  sampleRate : Nat
  trackMeta : Option TrackMeta
  position : Option Rat
deriving Repr, DecidableEq

/-- One decodable packet of the container, as the decoding loop of
`SymphoniaStream::read_packet` delivers it: the interleaved f32 samples
(embedded as rationals) together with the packet metadata.  Packets of
non-target tracks and soft decode errors are already skipped by that
loop, so the packet list of a stream is the sequence of successfully
decoded target packets. -/
structure Packet where
  samples : List Rat
  channelsCount : Nat
  sampleRate : Nat
  trackMeta : Option TrackMeta
  position : Option Rat
deriving Repr, DecidableEq

/-- Embedding of `SymphoniaStream` (src/symphonia_stream.rs:27): the
demuxer is modelled by the full packet list plus a cursor, and `buffer`
is the scratch `SampleBuffer` holding the last decoded samples. -/
structure StreamState where
  packets : List Packet
  cursor : Nat
  buffer : Option (List Rat)
deriving Repr, DecidableEq

namespace StreamState

/-- Embedding of `SymphoniaStream::read_packet`
(src/symphonia_stream.rs:77): decode the packet at the cursor, store its
samples in the scratch buffer, return its metadata; at the end of the
packet list the demuxer reports end of stream (`error`). -/
def readPacket (st : StreamState) : Except Unit (StreamPacketMeta × StreamState) :=
  match st.packets[st.cursor]? with
  | none => .error ()
  | some p =>
    .ok (⟨p.channelsCount, p.sampleRate, p.trackMeta, p.position⟩,
      { st with cursor := st.cursor + 1, buffer := some p.samples })

/-- Embedding of `SymphoniaStream::write` (src/symphonia_stream.rs:139):
append the scratch buffer's samples to the output deque and return
their count; fail when no sample buffer exists.  The scratch buffer is
NOT cleared by a write (the Rust code only reads `self.buffer`). -/
def write (st : StreamState) (out : List Rat) : Except Unit (Nat × List Rat) :=
  match st.buffer with
  | some samples => .ok (samples.length, out ++ samples)
  | none => .error ()

/-- Where an accurate seek to `pos` lands: the first packet whose
timestamp is at least `pos` (this abstracts symphonia's internal seek
index; the claims do not depend on the landing point). -/
def seekCursor (packets : List Packet) (pos : Rat) : Nat :=
  packets.findIdx (fun p => p.position.getD 0 ≥ pos)

/-- Embedding of `SymphoniaStream::seek` (src/symphonia_stream.rs:148):
reposition the demuxer, report the actual landing timestamp, and
invalidate the scratch buffer (`self.buffer = None`).  Seek errors are
swallowed by the Rust code (timestamp 0), so the embedding is total. -/
def seek (st : StreamState) (pos : Rat) : Rat × StreamState :=
  let c := seekCursor st.packets pos
  let actual := ((st.packets[c]?).bind (·.position)).getD 0
  (actual, { st with cursor := c, buffer := none })

end StreamState

/-- Result of `Decoder::read_stream` (src/decoder.rs:54). -/
inductive DecoderReadResult where
  | bufferNotFull
  | bufferFull
  | needResetOutput
  | readEnd
deriving Repr, DecidableEq

/-- `BUFFER_CAPACITY` (src/decoder.rs:28). -/
def BUFFER_CAPACITY : Nat := 65535

/-- `BUFFER_SOFT_STOP` (src/decoder.rs:29). -/
def BUFFER_SOFT_STOP : Nat := 60000

/-- The effectful environment of the decoder: `openStream` stands for
`stream_man::open` (opening a container file as a stream) and
`parseCue` for `CueSheet::new`. -/
structure DecoderEnv where
  openStream : ByteStr → Except Unit StreamState
  parseCue : ByteStr → Except Unit CueSheet

/-- `Decoder` state (src/decoder.rs:37).  The ring buffer is the sample
deque shared with the output callback; the output volume cell is not
modelled (no claim touches it). -/
structure Decoder where
  stream : Option StreamState
  track : Option Track
  packetMeta : Option StreamPacketMeta
  previousPacketMeta : Option StreamPacketMeta
  fileMeta : Option TrackMeta
  trackMeta : Option TrackMeta
  newTrackMeta : Option TrackMeta
  buf : List Rat
  position : Rat
  atEnd : Bool
  waitEmptyBuf : Bool
  cueFactory : CueFactory
  cueSheet : Option CueSheet
deriving Repr, DecidableEq

namespace Decoder

/-- `Decoder::new` (src/decoder.rs:62). -/
def new : Decoder :=
  { stream := none, track := none, packetMeta := none, previousPacketMeta := none
    fileMeta := none, trackMeta := none, newTrackMeta := none, buf := []
    position := 0, atEnd := false, waitEmptyBuf := false
    cueFactory := CueFactory.empty, cueSheet := none }

/-- `Decoder::stop` (src/decoder.rs:85): note that `at_end` and
`wait_empty_buf` are NOT reset by the Rust code. -/
def stop (d : Decoder) : Decoder :=
  { d with
    stream := none
    track := none
    packetMeta := none
    previousPacketMeta := none
    fileMeta := none
    trackMeta := none
    newTrackMeta := none
    cueSheet := none
    position := 0
    buf := [] }

/-- Outcome of the fallible decoder operations (`panic` propagates the
`is_supported_file` slicing panic, `err` an `anyhow` error). -/
inductive DecRes where
  | panic
  | err
  | ok
deriving Repr, DecidableEq

/-- Embedding of `Decoder::sheet_for_track` (src/decoder.rs:106):
tracks without a CUE index have no sheet; otherwise consult the
factory, treating a `None` memo answer ("file is not CUE") as an
error. -/
def sheetForTrack (env : CueEnv) (d : Decoder) (t : Track) :
    (DecRes × Option CueSheet) × Decoder :=
  match t.index with
  | none => ((.ok, none), d)
  | some _ =>
    match d.cueFactory.getOrNew env t.filename with
    | (.panic, f, _) => ((.panic, none), { d with cueFactory := f })
    | (.err, f, _) => ((.err, none), { d with cueFactory := f })
    | (.ok none, f, _) => ((.err, none), { d with cueFactory := f })
    | (.ok (some sheet), f, _) => ((.ok, some sheet), { d with cueFactory := f })

/-- `Decoder::sheet_and_index` (src/decoder.rs:269). -/
def sheetAndIndex (d : Decoder) : Option (CueSheet × Nat) :=
  match d.cueSheet, d.track.bind (·.index) with
  | some sheet, some index => some (sheet, index)
  | _, _ => none

/-- `Decoder::buffer_len` (src/decoder.rs:225). -/
def bufferLen (d : Decoder) : Nat := d.buf.length

/-- `Decoder::can_read_more` (src/decoder.rs:230). -/
def canReadMore (d : Decoder) : Bool := d.bufferLen < BUFFER_SOFT_STOP

/-- `Decoder::buf_items_per_sec` (src/decoder.rs:235). -/
def bufItemsPerSec (d : Decoder) : Option Nat :=
  d.packetMeta.map (fun m => m.channelsCount * m.sampleRate)

/-- `Decoder::buffer_duration` (src/decoder.rs:241): buffered seconds =
buffer length / samples per second. -/
def bufferDuration (d : Decoder) : Option Rat :=
  d.bufItemsPerSec.map (fun perSec => (d.bufferLen : Rat) / (perSec : Rat))

/-- Embedding of `Decoder::playback_position` (src/decoder.rs:249):
saturating subtractions of the buffered duration and, when a CUE
virtual track is active, that track's start (`unwrap_or_default`
turns a failed start lookup into zero). -/
def playbackPosition (d : Decoder) : Rat :=
  let bufDur := d.bufferDuration.getD 0
  let pos := satSub d.position bufDur
  match d.sheetAndIndex with
  | some (sheet, index) => satSub pos ((sheet.trackStart index).getD 0)
  | none => pos

/-- Embedding of `Decoder::valid_playback_position` (src/decoder.rs:259):
like `playback_position` but failing instead of defaulting. -/
def validPlaybackPosition (d : Decoder) : Except Unit Rat :=
  match d.bufferDuration with
  | none => .error ()
  | some bufDur =>
    let pos := satSub d.position bufDur
    match d.sheetAndIndex with
    | some (sheet, index) =>
      match sheet.trackStart index with
      | none => .error ()
      | some start => .ok (satSub pos start)
    | none => .ok pos

/-- Embedding of `Decoder::seek_to` (src/decoder.rs:278): translate the
CUE-relative position to absolute stream time, seek, clear the ring
buffer, and report the landing point relative to the CUE track start. -/
def seekTo (d : Decoder) (pos : Rat) : (Except Unit Rat) × Decoder :=
  match d.sheetAndIndex with
  | some (sheet, index) =>
    match sheet.trackStart index with
    | none => (.error (), d)
    | some start => seekAbs d (pos + start) start
  | none => seekAbs d (pos + 0) 0
where
  /-- The tail of `seek_to` after the start is resolved. -/
  seekAbs (d : Decoder) (pos start : Rat) : (Except Unit Rat) × Decoder :=
    match d.stream with
    | some st =>
      let (seekedTo, st') := st.seek pos
      (.ok (satSub seekedTo start),
        { d with stream := some st', buf := [], atEnd := false })
    | none => (.error (), d)

/-- `Decoder::is_format_change` (src/decoder.rs:303). -/
def isFormatChange (curMeta : Option StreamPacketMeta) (newMeta : StreamPacketMeta) : Bool :=
  match curMeta with
  | some cur => cur.channelsCount != newMeta.channelsCount || cur.sampleRate != newMeta.sampleRate
  | none => false

/-- `Decoder::set_track_meta` (src/decoder.rs:311). -/
def setTrackMeta (d : Decoder) (trackMeta : Option TrackMeta) : Decoder :=
  match trackMeta with
  | none => d
  | some m =>
    let newMeta :=
      match d.sheetAndIndex with
      | some (sheet, index) => sheet.trackMeta index m
      | none => some m
    { d with trackMeta := newMeta, fileMeta := some m, newTrackMeta := newMeta }

/-- Embedding of `Decoder::read_stream` (src/decoder.rs:323). -/
def readStream (d : Decoder) : DecoderReadResult × Decoder :=
  if d.atEnd || !d.canReadMore then
    (.bufferFull, d)
  else
    match d.stream with
    | none => (.bufferFull, d)
    | some st =>
      if d.waitEmptyBuf then
        if d.bufferLen ≠ 0 then
          (.bufferFull, d)
        else
          (.needResetOutput, { d with waitEmptyBuf := false })
      else
        let prevMeta := d.previousPacketMeta
        let d1 := { d with previousPacketMeta := none }
        match st.readPacket with
        | .error _ => (.readEnd, { d1 with atEnd := true })
        | .ok (pm, st') =>
          let formatChanged := isFormatChange prevMeta pm
          let trackMeta := pm.trackMeta
          let pm := { pm with trackMeta := none }
          if formatChanged then
            (.bufferFull, setTrackMeta { d1 with stream := some st', waitEmptyBuf := true } trackMeta)
          else
            let d2 := { d1 with stream := some st' }
            let d3 :=
              match st'.write d2.buf with
              | .ok (_, buf') => setTrackMeta { d2 with buf := buf', packetMeta := some pm } trackMeta
              | .error _ => d2
            match d3.packetMeta.bind (·.position) with
            | some position =>
              let d4 := { d3 with position := position }
              match d4.sheetAndIndex with
              | some (sheet, index) =>
                if sheet.trackIndexByPosition position > index then
                  (.readEnd, { d4 with atEnd := true })
                else
                  (.bufferNotFull, d4)
              | none => (.bufferNotFull, d4)
            | none => (.bufferNotFull, d3)

/-- Embedding of `Decoder::play` (src/decoder.rs:157). -/
def play (env : DecoderEnv) (d : Decoder) (t : Track) : DecRes × Decoder :=
  match sheetForTrack ⟨env.parseCue⟩ d t with
  | ((.panic, _), d') => (.panic, d')
  | ((.err, _), d') => (.err, d')
  | ((.ok, newSheetOpt), d') =>
    match newSheetOpt, t.index with
    | some newSheet, some newIndex =>
      match d'.stream, d'.cueSheet with
      | some _, some curSheet =>
        if newSheet.sourceFilename = curSheet.sourceFilename then
          match d'.track.bind (·.index) with
          | some curIndex =>
            if newIndex = curIndex + 1 then
              -- gapless adjacent CUE track: keep the stream and buffer
              let d'' :=
                match d'.fileMeta with
                | some fm => { d' with newTrackMeta := newSheet.trackMeta newIndex fm }
                | none => d'
              (.ok, { d'' with track := some t, atEnd := false })
            else
              playSameSheetSeek d' t newSheet newIndex
          | none => playSameSheetSeek d' t newSheet newIndex
        else
          playNewSheet env d' t newSheet
      | _, _ => playNewSheet env d' t newSheet
    | _, _ =>
      -- plain (non-CUE) track
      let d'' :=
        match d'.packetMeta with
        | some meta => { d' with packetMeta := none, previousPacketMeta := some meta }
        | none => d'
      let d3 := { d'' with trackMeta := none, fileMeta := none }
      match env.openStream t.filename with
      | .ok st => (.ok, { d3 with stream := some st, atEnd := false, track := some t })
      | .error _ => (.err, d3)
where
  /-- Same CUE source, non-adjacent index (src/decoder.rs:181). -/
  playSameSheetSeek (d : Decoder) (t : Track) (newSheet : CueSheet) (newIndex : Nat) :
      DecRes × Decoder :=
    let d1 := { d with trackMeta := none, track := some t }
    match d1.seekTo 0 with
    | (.error _, d2) => (.err, d2)
    | (.ok _, d2) =>
      let d3 :=
        match d2.fileMeta with
        | some fm => { d2 with newTrackMeta := newSheet.trackMeta newIndex fm }
        | none => d2
      (.ok, { d3 with atEnd := false })
  /-- Different (or no) current CUE source (src/decoder.rs:193). -/
  playNewSheet (env : DecoderEnv) (d : Decoder) (t : Track) (newSheet : CueSheet) :
      DecRes × Decoder :=
    match env.openStream newSheet.sourceFilename with
    | .error _ => (.err, d)
    | .ok st =>
      let d1 := { d with stream := some st, trackMeta := none, fileMeta := none,
                         track := some t, cueSheet := some newSheet }
      match d1.seekTo 0 with
      | (.error _, d2) => (.err, d2)
      | (.ok _, d2) => (.ok, { d2 with atEnd := false })

end Decoder

/-- The decoder operations of claim C1. -/
inductive DecOp where
  | play (t : Track)
  | readStream
  | seekTo (pos : Rat)
  | stop
deriving Repr, DecidableEq

/-- The state transition of one decoder operation (the returned result
value is dropped). -/
def decStep (env : DecoderEnv) (d : Decoder) : DecOp → Decoder
  | .play t => (Decoder.play env d t).2
  | .readStream => d.readStream.2
  | .seekTo pos => (d.seekTo pos).2
  | .stop => d.stop

/-- Run a sequence of decoder operations from a state. -/
def decRun (env : DecoderEnv) (d : Decoder) : List DecOp → Decoder
  | [] => d
  | op :: ops => decRun env (decStep env d op) ops

/-- Every packet of the stream decodes to at most `K` samples. -/
def packetsBounded (K : Nat) (st : StreamState) : Prop :=
  ∀ p ∈ st.packets, p.samples.length ≤ K

/-- Every stream the environment can open has packets of at most `K`
samples. -/
def envBounded (K : Nat) (env : DecoderEnv) : Prop :=
  ∀ path st, env.openStream path = .ok st → packetsBounded K st

/-- Spec-side phrasing for C2: "buffered duration = buffer length /
(channels × sample_rate) of the current packet meta". -/
def specBufferedDuration (d : Decoder) : Rat :=
  match d.packetMeta with
  | some m => (d.buf.length : Rat) / ((m.channelsCount * m.sampleRate : Nat) : Rat)
  | none => 0

/-- Spec-side phrasing for C2: "the active CUE track's start (zero when
no CUE virtual track is active)". -/
def specCueTrackStart (d : Decoder) : Rat :=
  match d.sheetAndIndex with
  | some (sheet, index) => (sheet.trackStart index).getD 0
  | none => 0

/-- `PlaybackState` (src/player.rs:102). -/
inductive PlaybackState where
  | stopped
  | playing
  | paused
deriving Repr, DecidableEq

/-- The `PlayerResponse` constructors the modelled command handlers can
emit (src/player.rs:64); payloads irrelevant to the claims (metadata
contents, callback payloads) are dropped. -/
inductive PlayerResp where
  | newPlaylistIndex (playlistIndex : Nat) (track : Track) (userNavigation : Bool)
  | newMeta (userNavigation : Bool)
  | playbackStateChanged (state : PlaybackState) (position : Rat)
  | playlistEnded
deriving Repr, DecidableEq

/-- The engine's view of the decoder for the navigation claims: whether
`Decoder::play` and `Decoder::load_meta` succeed on a given track
(opening, CUE resolution and the first packet read). -/
structure PlayerEnv where
  playOk : Track → Bool
  loadOk : Track → Bool

/-- The navigation state of `PlayerThread` (src/player.rs:126).  The
decoder, output handle and position callbacks are not part of the
navigation claims and are summarized by `PlayerEnv`. -/
structure Engine where
  playlist : List Track
  playlistIndex : Nat
  sentPlaylistIndex : Option Nat
  userNavForNextMeta : Bool
deriving Repr, DecidableEq

namespace Engine

/-- `PlayerThread::stop` (src/player.rs:179): clears the last-sent
index and announces the stopped state. -/
def stop (e : Engine) : Engine × List PlayerResp :=
  ({ e with sentPlaylistIndex := none },
    [.playbackStateChanged .stopped 0])

/-- Embedding of `PlayerThread::send_playlist_index` (src/player.rs:412):
emit `NewPlaylistIndex` only when the current index differs from the
last index sent (and is in range), then record it as sent. -/
def sendPlaylistIndex (e : Engine) (userNavigation : Bool) : Engine × List PlayerResp :=
  match e.sentPlaylistIndex with
  | some index =>
    if index = e.playlistIndex then (e, [])
    else sendUnchecked e userNavigation
  | none => sendUnchecked e userNavigation
where
  /-- The body after the already-sent early return. -/
  sendUnchecked (e : Engine) (userNavigation : Bool) : Engine × List PlayerResp :=
    match e.playlist[e.playlistIndex]? with
    | none => (e, [])
    | some track =>
      ({ e with sentPlaylistIndex := some e.playlistIndex },
        [.newPlaylistIndex e.playlistIndex track userNavigation])

/-- Embedding of `PlayerThread::play` (src/player.rs:227).  The Boolean
reports success; note the Rust code assigns `playlist_index` before
calling `Decoder::play`, so the index sticks even when the play fails. -/
def play (env : PlayerEnv) (e : Engine) (indexOpt : Option Nat) (userNavigation : Bool) :
    Bool × Engine × List PlayerResp :=
  let index := indexOpt.getD e.playlistIndex
  match e.playlist[index]? with
  | none => (false, e, [])
  | some track =>
    let e1 := { e with playlistIndex := index }
    if env.playOk track then
      let (e2, rs) := sendPlaylistIndex e1 userNavigation
      (true, { e2 with userNavForNextMeta := userNavigation },
        rs ++ [.playbackStateChanged .playing 0])
    else
      (false, e1, [])

/-- Embedding of `PlayerThread::fetch_next_playlist_index`
(src/player.rs:257): `none` with an optional `PlaylistEnded` response
stands for the `bail!`. -/
def fetchNextPlaylistIndex (e : Engine) (curIndex : Nat) (wrap emitEnded : Bool) :
    Option Nat × List PlayerResp :=
  if curIndex < e.playlist.length - 1 then (some (curIndex + 1), [])
  else if wrap then (some 0, [])
  else (none, if emitEnded then [.playlistEnded] else [])

/-- The loop of `PlayerThread::move_and_play` (src/player.rs:317) for
`MoveTo::Next`: the fuel is the `files_left` counter (decremented at
the top of each iteration; exhausting it is the `dec_valid_files`
bail). -/
def moveNextLoop (env : PlayerEnv) (e : Engine) (wrap userNavigation : Bool) :
    Nat → Bool × Engine × List PlayerResp
  | 0 => (false, e, [])
  | fuel + 1 =>
    match fetchNextPlaylistIndex e e.playlistIndex wrap true with
    | (none, rs) => (false, e, rs)
    | (some newIndex, rs) =>
      match play env e (some newIndex) userNavigation with
      | (true, e', rs') => (true, e', rs ++ rs')
      | (false, e', rs') =>
        let (ok, e'', rs'') := moveNextLoop env e' wrap userNavigation fuel
        (ok, e'', rs ++ rs' ++ rs'')

/-- `PlayerThread::move_and_play` for `MoveTo::Next` (used by the
`Next` command with `wrap = true` and by automatic track advance with
`wrap = false`). -/
def moveAndPlayNext (env : PlayerEnv) (e : Engine) (wrap userNavigation : Bool) :
    Bool × Engine × List PlayerResp :=
  if e.playlist.length = 0 then (false, e, [])
  else moveNextLoop env e wrap userNavigation e.playlist.length

/-- The retry loop of the `LoadMeta` command handler (src/player.rs:495)
together with `PlayerThread::load_meta` (src/player.rs:202): try
successive indices until one loads; on success set the index and emit
`NewPlaylistIndex` directly (bypassing the sent-index tracking)
followed by `NewMeta`. -/
def loadMetaFrom (env : PlayerEnv) (e : Engine) (index : Nat) :
    Nat → Engine × List PlayerResp
  | 0 => (e, [])
  | fuel + 1 =>
    match e.playlist[index]? with
    | none => (e, [])
    | some track =>
      if env.loadOk track then
        ({ e with playlistIndex := index },
          [.newPlaylistIndex index track false, .newMeta false])
      else
        loadMetaFrom env e (index + 1) fuel

/-- The engine commands the claims exercise (src/player.rs:26). -/
inductive Cmd where
  | setPlaylist (tracks : List Track)
  | loadMeta (index : Nat)
  | play (index : Option Nat)
  | stop
  | next
deriving Repr, DecidableEq

/-- Embedding of the corresponding arms of
`PlayerThread::process_client_cmd` (src/player.rs:481): every
track-changing command stops first; a failed `Play` falls back to
`next(false, true)`. -/
def processCmd (env : PlayerEnv) (e : Engine) : Cmd → Engine × List PlayerResp
  | .setPlaylist tracks =>
    let (e1, rs) := e.stop
    ({ e1 with playlist := tracks, playlistIndex := 0 }, rs)
  | .loadMeta index =>
    let (e1, rs) := e.stop
    let (e2, rs2) := loadMetaFrom env e1 index (e1.playlist.length + 1 - index)
    (e2, rs ++ rs2)
  | .play index =>
    let (e1, rs) := e.stop
    match play env e1 index true with
    | (true, e2, rs2) => (e2, rs ++ rs2)
    | (false, e2, rs2) =>
      let (_, e3, rs3) := moveAndPlayNext env e2 false true
      (e3, rs ++ rs2 ++ rs3)
  | .stop => e.stop
  | .next =>
    let (e1, rs) := e.stop
    let (_, e2, rs2) := moveAndPlayNext env e1 true true
    (e2, rs ++ rs2)

/-- Process a command sequence, accumulating all emitted responses. -/
def runCmds (env : PlayerEnv) (e : Engine) : List Cmd → Engine × List PlayerResp
  | [] => (e, [])
  | cmd :: rest =>
    let (e1, rs) := processCmd env e cmd
    let (e2, rs2) := runCmds env e1 rest
    (e2, rs ++ rs2)

/-- The playlist-index trajectory of a command sequence: the index
after each processed command. -/
def indexTrace (env : PlayerEnv) (e : Engine) : List Cmd → List Nat
  | [] => []
  | cmd :: rest =>
    let (e1, _) := processCmd env e cmd
    e1.playlistIndex :: indexTrace env e1 rest

end Engine

/-- Tray icon images (src/tray_icon.rs, `TrayIconImageType`). -/
inductive TrayIconImageType where
  | stop
  | play
  | playHL
  | pause
deriving Repr, DecidableEq

/-- The slice of `App` state (src/app.rs:30) that the scrobbling claim
reads: the current metadata, the recorded last seek position, which
scrobbling services are configured, and the tray image. -/
structure AppSt where
  meta : TrackMeta
  lastSeekPosition : Option Rat
  hasListenBrainz : Bool
  hasLastFM : Bool
  trayImage : TrayIconImageType
deriving Repr, DecidableEq

/-- Calls to the external scrobbling services. -/
inductive ExtCall where
  | listenBrainzPlayingNow
  | lastfmPlayingNow
  | listenBrainzSubmit
  | lastfmScrobble
deriving Repr, DecidableEq

/-- `POS_CALLBACK_NOW_PLAYING` (src/app.rs:47). -/
def POS_CALLBACK_NOW_PLAYING : Nat := 0

/-- `POS_CALLBACK_SCROBBLE` (src/app.rs:49). -/
def POS_CALLBACK_SCROBBLE : Nat := 1

/-- `POS_CALLBACK_HL_END` (src/app.rs:51). -/
def POS_CALLBACK_HL_END : Nat := 2

/-- `POS_MIN_DURATION_TO_SCROBBLE` = 30 seconds (src/app.rs:53). -/
def POS_MIN_DURATION_TO_SCROBBLE : Rat := 30

/-- Embedding of `App::process_position_callback` (src/app.rs:353):
external submissions require a strictly-greater-than-30s duration,
artist and title present; the scrobble callback additionally requires
the recorded seek position to be unset or zero. -/
def processPositionCallback (a : AppSt) (callbackId : Nat) : AppSt × List ExtCall :=
  let calls :=
    if POS_MIN_DURATION_TO_SCROBBLE < a.meta.duration then
      match a.meta.artist, a.meta.title with
      | some _, some _ =>
        if callbackId = POS_CALLBACK_NOW_PLAYING then
          (if a.hasListenBrainz then [ExtCall.listenBrainzPlayingNow] else []) ++
          (if a.hasLastFM then [ExtCall.lastfmPlayingNow] else [])
        else if callbackId = POS_CALLBACK_SCROBBLE then
          if a.lastSeekPosition.getD 0 = 0 then
            (if a.hasListenBrainz then [ExtCall.listenBrainzSubmit] else []) ++
            (if a.hasLastFM then [ExtCall.lastfmScrobble] else [])
          else []
        else []
      | _, _ => []
    else []
  let a' :=
    if callbackId = POS_CALLBACK_HL_END ∧ a.trayImage = .playHL then
      { a with trayImage := .play }
    else a
  (a', calls)

/-- The `NewPlaylistIndex` arm of `App::process_player_response`
(src/app.rs:416) restricted to the modelled state: reset the metadata,
clear the recorded seek position, highlight the tray for non-user
navigation. -/
def appOnNewPlaylistIndex (a : AppSt) (userNavigation : Bool) : AppSt :=
  let a1 := { a with meta := TrackMeta.default, lastSeekPosition := none }
  if !userNavigation ∧ a1.trayImage = .play then
    { a1 with trayImage := .playHL }
  else a1

/-- The `Seeked` arm of `App::process_player_response` (src/app.rs:451):
record the seeked-to position. -/
def appOnSeeked (a : AppSt) (position : Rat) : AppSt :=
  { a with lastSeekPosition := some position }

/-- The environment of the C1 counterexample: every opened stream
delivers eight packets of 8192 samples each (stereo FLAC blocks of
4096 frames), and there are no CUE files. -/
def c1CexEnv : DecoderEnv :=
  ⟨fun _ => .ok ⟨List.replicate 8 ⟨List.replicate 8192 0, 2, 44100, none, none⟩, 0, none⟩,
    fun _ => .error ()⟩

/-- The decoder state of the C1 counterexample run: after playing the
track and reading the stream `j` times the ring buffer holds
`8192 * j` samples. -/
def c1CexState (j : Nat) : Decoder :=
  { Decoder.new with
    stream := some ⟨List.replicate 8 ⟨List.replicate 8192 0, 2, 44100, none, none⟩, j,
      if j = 0 then none else some (List.replicate 8192 0)⟩
    track := some ⟨[97], none⟩
    buf := List.replicate (8192 * j) 0
    packetMeta := if j = 0 then none else some ⟨2, 44100, none, none⟩ }

/-- A well-formed factory memo: every memoized key is a CUE path and
every memoized value is a parsed sheet (the code never inserts anything
else; in particular it never caches a failure). -/
def CueFactory.WF (f : CueFactory) : Prop :=
  ∀ kv ∈ f.sheets, isSupportedFile kv.1 = some true ∧ kv.2.isSome

/-!  ## Theorems  -/

theorem eqIgnoreAsciiCase_eq_true_iff :
    ∀ (a b : ByteStr), eqIgnoreAsciiCase a b = true ↔ a.map asciiToLower = b.map asciiToLower
  | [], [] => by simp [eqIgnoreAsciiCase]
  | [], _ :: _ => by simp [eqIgnoreAsciiCase]
  | _ :: _, [] => by simp [eqIgnoreAsciiCase]
  | a :: as_, b :: bs => by
    simp [eqIgnoreAsciiCase, eqIgnoreAsciiCase_eq_true_iff as_ bs]

/-- C10.  The original claim is false: `is_supported_file` byte-slices
the filename at `len - 4`, which panics when that offset falls inside a
multi-byte character.  The filename `"😀a"` (bytes `F0 9F 98 80 61`) is
valid UTF-8 and five bytes long, and byte 1 is a continuation byte, so
`&filename[1..]` panics. -/
theorem c10_counterexample :
    utf8Valid [240, 159, 152, 128, 97] = true ∧
    isSupportedFile [240, 159, 152, 128, 97] = none := by
  decide

/-- C10 (amended): for every filename that is shorter than four bytes
or whose byte at `len - 4` is a character boundary — in particular
every ASCII filename — `is_supported_file` returns a Boolean without
panicking, and the Boolean holds exactly when the final four bytes
compare case-insensitively equal to `".cue"`. -/
theorem c10_is_supported_file_total (bs : ByteStr)
    (h : bs.length < 4 ∨ isCharBoundary bs (bs.length - 4) = true) :
    ∃ r, isSupportedFile bs = some r ∧ (r = true ↔ endsWithDotCueCI bs) := by
  by_cases hlen : bs.length < 4
  · refine ⟨false, ?_, ?_⟩
    · simp [isSupportedFile, hlen]
    · simp only [Bool.false_eq_true, false_iff]
      intro hc
      exact absurd hc.1 (by omega)
  · have hb : isCharBoundary bs (bs.length - 4) = true := h.resolve_left hlen
    refine ⟨eqIgnoreAsciiCase (bs.drop (bs.length - 4)) dotCueBytes, ?_, ?_⟩
    · simp [isSupportedFile, hlen, hb]
    · rw [eqIgnoreAsciiCase_eq_true_iff]
      unfold endsWithDotCueCI
      have hmap : dotCueBytes.map asciiToLower = dotCueBytes := by decide
      rw [hmap]
      constructor
      · intro hx
        exact ⟨by omega, hx⟩
      · intro hx
        exact hx.2

theorem c10_is_supported_file_total_witness :
    ∃ r, isSupportedFile [97, 46, 99, 117, 101] = some r ∧
      (r = true ↔ endsWithDotCueCI [97, 46, 99, 117, 101]) :=
  c10_is_supported_file_total [97, 46, 99, 117, 101] (Or.inr (by decide))

/-- C9.  The original claim is false: `SymphoniaStream::write` does not
invalidate the sample buffer, so after a packet has been decoded two
consecutive `write` calls with no intervening `read_packet` both
succeed, the second appending the same samples again (the stream state
is untouched by a write, so the second call runs from the same state). -/
theorem c9_counterexample :
    StreamState.write ⟨[], 0, some [1]⟩ [] = .ok (1, [1]) ∧
    StreamState.write ⟨[], 0, some [1]⟩ [1] = .ok (1, [1, 1]) :=
  ⟨rfl, rfl⟩

/-- C9 (amended): `write` appends the samples decoded by the last
`read_packet` to the output deque and returns their count; it fails
exactly when no packet has been decoded since the stream was opened or
since the last `seek` (the sample buffer is `None`); a `seek` clears
the sample buffer, so `write` after a seek fails until the next
`read_packet`, after which it succeeds again.  Consecutive writes
without an intervening `read_packet` do not fail. -/
theorem c9_write :
    (∀ (st : StreamState) (out samples : List Rat), st.buffer = some samples →
      st.write out = .ok (samples.length, out ++ samples))
    ∧ (∀ (st : StreamState) (out : List Rat), st.buffer = none →
      st.write out = .error ())
    ∧ (∀ (st : StreamState) (pos : Rat) (out : List Rat),
      (st.seek pos).2.buffer = none ∧ (st.seek pos).2.write out = .error ())
    ∧ (∀ (st st' : StreamState) (pm : StreamPacketMeta) (out : List Rat),
      st.readPacket = .ok (pm, st') →
      ∃ samples, st'.buffer = some samples ∧
        st'.write out = .ok (samples.length, out ++ samples)) := by
  refine ⟨?_, ?_, ?_, ?_⟩
  · intro st out samples hbuf
    simp [StreamState.write, hbuf]
  · intro st out hbuf
    simp [StreamState.write, hbuf]
  · intro st pos out
    exact ⟨rfl, rfl⟩
  · intro st st' pm out hread
    unfold StreamState.readPacket at hread
    cases hp : st.packets[st.cursor]? with
    | none => rw [hp] at hread; exact absurd hread (by simp)
    | some p =>
      rw [hp] at hread
      have hst' : st' = { st with cursor := st.cursor + 1, buffer := some p.samples } := by
        cases hread; rfl
      subst hst'
      exact ⟨p.samples, rfl, rfl⟩

theorem c9_write_witness :
    StreamState.write ⟨[], 0, some [2]⟩ [] = .ok (1, [2]) :=
  c9_write.1 ⟨[], 0, some [2]⟩ [] [2] rfl

/-- C6.  The "cached failure" part of the claim is false: on a parse
failure `get_or_new` `bail!`s before reaching the memo insertion, so
nothing is cached and a second call for the same path parses the file
again (the parse counter of the second call is 1, not 0). -/
theorem c6_counterexample :
    CueFactory.getOrNew ⟨fun _ => .error ()⟩ CueFactory.empty [97, 46, 99, 117, 101]
      = (.err, CueFactory.empty, 1) ∧
    (CueFactory.getOrNew ⟨fun _ => .error ()⟩
      (CueFactory.getOrNew ⟨fun _ => .error ()⟩ CueFactory.empty
        [97, 46, 99, 117, 101]).2.1 [97, 46, 99, 117, 101]).2.2 = 1 := by
  decide

/-- C6 (amended): `get_or_new` returns `None` for every path the
support check classifies as non-CUE (given that, as the code
maintains, only parsed CUE sheets are memoized); repeated calls for a
successfully parsed CUE path return the same shared sheet without
re-parsing; but a parse failure is NOT cached: the factory is left
unchanged and a subsequent call for the same path parses the file
again. -/
theorem c6_get_or_new :
    (∀ (env : CueEnv) (f : CueFactory) (path : ByteStr), f.WF →
      isSupportedFile path = some false →
      f.getOrNew env path = (.ok none, f, 0))
    ∧ (∀ (env : CueEnv) (f : CueFactory) (path : ByteStr) (s : CueSheet)
        (f' : CueFactory) (n : Nat),
      f.getOrNew env path = (.ok (some s), f', n) →
      f'.getOrNew env path = (.ok (some s), f', 0))
    ∧ (∀ (env : CueEnv) (f : CueFactory) (path : ByteStr),
      f.get path = none → isSupportedFile path = some true →
      env.parseCue path = .error () →
      f.getOrNew env path = (.err, f, 1)) := by
  refine ⟨?_, ?_, ?_⟩
  · intro env f path hwf hsup
    have hget : f.get path = none := by
      unfold CueFactory.get
      cases hfind : f.sheets.find? (fun kv => kv.1 == path) with
      | none => rfl
      | some kv =>
        have hmem := List.mem_of_find?_eq_some hfind
        have hkey := List.find?_some hfind
        have heq : kv.1 = path := by simpa using hkey
        have h1 := (hwf kv hmem).1
        rw [heq] at h1
        rw [h1] at hsup
        exact absurd hsup (by simp)
    unfold CueFactory.getOrNew
    rw [hget, hsup]
  · intro env f path s f' n hcall
    unfold CueFactory.getOrNew at hcall
    cases hget : f.get path with
    | some cached =>
      rw [hget] at hcall
      have hc : cached = some s ∧ f' = f := by
        refine ⟨?_, ?_⟩ <;> cases hcall <;> rfl
      unfold CueFactory.getOrNew
      rw [hc.2, hget, hc.1]
    | none =>
      rw [hget] at hcall
      cases hsup : isSupportedFile path with
      | none => rw [hsup] at hcall; exact absurd hcall (by simp)
      | some b =>
        rw [hsup] at hcall
        cases b with
        | false => exact absurd hcall (by simp)
        | true =>
          cases hparse : env.parseCue path with
          | error e => rw [hparse] at hcall; exact absurd hcall (by simp)
          | ok sheet =>
            rw [hparse] at hcall
            obtain ⟨hsheet, hf'⟩ : sheet = s ∧ f' = f.insert path (some s) := by
              refine ⟨?_, ?_⟩ <;> cases hcall <;> rfl
            subst hsheet
            unfold CueFactory.getOrNew
            have : f'.get path = some (some sheet) := by
              rw [hf']
              unfold CueFactory.get CueFactory.insert
              simp [List.find?]
            rw [this]
  · intro env f path hget hsup hparse
    unfold CueFactory.getOrNew
    rw [hget, hsup, hparse]

theorem c6_get_or_new_witness :
    CueFactory.getOrNew ⟨fun _ => .error ()⟩ CueFactory.empty [97, 46, 109, 112, 51]
      = (.ok none, CueFactory.empty, 0) :=
  c6_get_or_new.1 ⟨fun _ => .error ()⟩ CueFactory.empty [97, 46, 109, 112, 51]
    (by intro kv hkv; simp [CueFactory.empty] at hkv) (by decide)

/-- C8 (confirmed): in `process_position_callback`, an external
scrobble submission (ListenBrainz submit or Last.fm scrobble) happens
only when the recorded last seek position is unset or exactly zero and
the current metadata's duration is at least 30 seconds (the code in
fact requires strictly more than 30 seconds, which implies the claimed
bound); and the engine-response arms record the seek state exactly as
the claim describes: `NewPlaylistIndex` clears the recorded seek
position and `Seeked` stores the seeked-to position. -/
theorem c8_scrobble_only_if :
    (∀ (a : AppSt) (callbackId : Nat),
      (ExtCall.listenBrainzSubmit ∈ (processPositionCallback a callbackId).2 ∨
       ExtCall.lastfmScrobble ∈ (processPositionCallback a callbackId).2) →
      (a.lastSeekPosition = none ∨ a.lastSeekPosition = some 0) ∧
        POS_MIN_DURATION_TO_SCROBBLE ≤ a.meta.duration)
    ∧ (∀ (a : AppSt) (userNavigation : Bool),
      (appOnNewPlaylistIndex a userNavigation).lastSeekPosition = none)
    ∧ (∀ (a : AppSt) (p : Rat), (appOnSeeked a p).lastSeekPosition = some p) := by
  refine ⟨?_, ?_, ?_⟩
  · intro a callbackId hmem
    unfold processPositionCallback at hmem
    by_cases hdur : POS_MIN_DURATION_TO_SCROBBLE < a.meta.duration
    · refine ⟨?_, le_of_lt hdur⟩
      cases hart : a.meta.artist with
      | none => simp [hdur, hart] at hmem
      | some artist =>
        cases htit : a.meta.title with
        | none => simp [hdur, hart, htit] at hmem
        | some title =>
          by_cases hnp : callbackId = POS_CALLBACK_NOW_PLAYING
          · exact absurd hmem (by
              rcases Bool.eq_false_or_eq_true a.hasListenBrainz with h1 | h1 <;>
              rcases Bool.eq_false_or_eq_true a.hasLastFM with h2 | h2 <;>
              simp [hdur, hart, htit, hnp, h1, h2])
          · by_cases hsc : callbackId = POS_CALLBACK_SCROBBLE
            · by_cases hseek : a.lastSeekPosition.getD 0 = 0
              · cases hlast : a.lastSeekPosition with
                | none => exact Or.inl rfl
                | some x =>
                  rw [hlast] at hseek
                  simp only [Option.getD_some] at hseek
                  exact Or.inr (by rw [hseek])
              · simp [hdur, hart, htit, hnp, hsc, hseek] at hmem
            · simp [hdur, hart, htit, hnp, hsc] at hmem
    · simp [hdur] at hmem
  · intro a userNavigation
    simp only [appOnNewPlaylistIndex]
    split <;> rfl
  · intro a p
    rfl

theorem c8_scrobble_only_if_witness :
    (AppSt.lastSeekPosition
        ⟨⟨some "a", none, some "t", none, none, none, none, none, 31⟩,
          none, true, true, .play⟩ = none ∨
     AppSt.lastSeekPosition
        ⟨⟨some "a", none, some "t", none, none, none, none, none, 31⟩,
          none, true, true, .play⟩ = some 0) ∧
    POS_MIN_DURATION_TO_SCROBBLE ≤
      (AppSt.meta ⟨⟨some "a", none, some "t", none, none, none, none, none, 31⟩,
          none, true, true, .play⟩).duration :=
  c8_scrobble_only_if.1
    ⟨⟨some "a", none, some "t", none, none, none, none, none, 31⟩,
      none, true, true, .play⟩
    POS_CALLBACK_SCROBBLE (Or.inl (by decide))

theorem satSub_satSub (a b c : Rat) (hc : 0 ≤ c) :
    satSub (satSub a b) c = max 0 (a - b - c) := by
  unfold satSub
  rcases le_or_lt 0 (a - b) with h | h
  · rw [max_eq_left h, max_comm]
  · rw [max_eq_right h.le]
    rw [max_eq_right (by linarith : 0 - c ≤ 0), max_eq_left (by linarith : a - b - c ≤ 0)]

theorem satSub_nonneg (a b : Rat) : 0 ≤ satSub a b :=
  le_max_right _ _

/-- C2 (confirmed): `playback_position()` equals the stream position
minus the buffered duration minus the active CUE track's start with
each subtraction saturating at zero (for nonnegative starts, equal to a
single subtraction clamped at zero), where the buffered duration is the
buffer length over channels × sample rate of the current packet meta
(zero without one) and the CUE start is zero when no CUE virtual track
is active; the result is never negative. -/
theorem c2_playback_position (d : Decoder) (hstart : 0 ≤ specCueTrackStart d) :
    d.playbackPosition
      = max 0 (d.position - specBufferedDuration d - specCueTrackStart d)
    ∧ 0 ≤ d.playbackPosition := by
  have hbuf : d.bufferDuration.getD 0 = specBufferedDuration d := by
    unfold Decoder.bufferDuration Decoder.bufItemsPerSec specBufferedDuration Decoder.bufferLen
    cases d.packetMeta <;> simp
  constructor
  · unfold Decoder.playbackPosition
    unfold specCueTrackStart at hstart ⊢
    cases hsi : d.sheetAndIndex with
    | none =>
      simp only [hsi, hbuf]
      unfold satSub
      rw [sub_zero, max_comm]
    | some si =>
      obtain ⟨sheet, index⟩ := si
      rw [hsi] at hstart
      simp only [hsi, hbuf]
      exact satSub_satSub _ _ _ hstart
  · unfold Decoder.playbackPosition
    cases d.sheetAndIndex with
    | none => exact satSub_nonneg _ _
    | some si => exact satSub_nonneg _ _

theorem c2_playback_position_witness :
    Decoder.playbackPosition
        { Decoder.new with position := 10, buf := [0, 0], packetMeta := some ⟨2, 1, none, none⟩ }
      = max 0 ((10 : Rat)
          - specBufferedDuration
              { Decoder.new with position := 10, buf := [0, 0], packetMeta := some ⟨2, 1, none, none⟩ }
          - specCueTrackStart
              { Decoder.new with position := 10, buf := [0, 0], packetMeta := some ⟨2, 1, none, none⟩ })
    ∧ (0 : Rat) ≤ Decoder.playbackPosition
        { Decoder.new with position := 10, buf := [0, 0], packetMeta := some ⟨2, 1, none, none⟩ } :=
  c2_playback_position
    { Decoder.new with position := 10, buf := [0, 0], packetMeta := some ⟨2, 1, none, none⟩ }
    (by decide)

theorem sendPlaylistIndex_preserves (e : Engine) (u : Bool) :
    (Engine.sendPlaylistIndex e u).1.playlist = e.playlist
    ∧ (Engine.sendPlaylistIndex e u).1.playlistIndex = e.playlistIndex := by
  unfold Engine.sendPlaylistIndex Engine.sendPlaylistIndex.sendUnchecked
  cases hs : e.sentPlaylistIndex with
  | none => cases ht : e.playlist[e.playlistIndex]? <;> simp
  | some i =>
    by_cases h : i = e.playlistIndex
    · simp [h]
    · simp only [h, if_false]
      cases ht : e.playlist[e.playlistIndex]? <;> simp

theorem play_success (env : PlayerEnv) (e : Engine) (index : Nat) (track : Track)
    (ht : e.playlist[index]? = some track) (hpk : env.playOk track = true) :
    (Engine.play env e (some index) true).1 = true
    ∧ (Engine.play env e (some index) true).2.1.playlist = e.playlist
    ∧ (Engine.play env e (some index) true).2.1.playlistIndex = index := by
  unfold Engine.play
  simp only [Option.getD_some]
  rw [ht]
  simp only [hpk, if_true]
  have hp := sendPlaylistIndex_preserves { e with playlistIndex := index } true
  cases hsend : Engine.sendPlaylistIndex { e with playlistIndex := index } true with
  | mk e2 rs =>
    rw [hsend] at hp
    exact ⟨by simp, hp.1, hp.2⟩

theorem processCmd_next (env : PlayerEnv) (e : Engine)
    (hok : ∀ t ∈ e.playlist, env.playOk t = true)
    (hidx : e.playlistIndex < e.playlist.length) :
    (Engine.processCmd env e .next).1.playlist = e.playlist
    ∧ (Engine.processCmd env e .next).1.playlistIndex
        = (e.playlistIndex + 1) % e.playlist.length := by
  have hlen : 0 < e.playlist.length := lt_of_le_of_lt (Nat.zero_le _) hidx
  have he1 : Engine.stop e = ({ e with sentPlaylistIndex := none },
      [.playbackStateChanged .stopped 0]) := rfl
  -- the index the loop will target, and the fact that one iteration succeeds
  have hnext : ∀ (e1 : Engine), e1.playlist = e.playlist →
      e1.playlistIndex = e.playlistIndex → ∀ (fuel : Nat),
      (Engine.moveNextLoop env e1 true true (fuel + 1)).2.1.playlist = e.playlist
      ∧ (Engine.moveNextLoop env e1 true true (fuel + 1)).2.1.playlistIndex
          = (e.playlistIndex + 1) % e.playlist.length := by
    intro e1 hpl hpi fuel
    unfold Engine.moveNextLoop Engine.fetchNextPlaylistIndex
    by_cases hlt : e1.playlistIndex < e1.playlist.length - 1
    · simp only [hlt, if_true]
      have hnew : e.playlistIndex + 1 < e.playlist.length := by
        rw [hpl, hpi] at hlt; omega
      obtain ⟨track, ht⟩ : ∃ track, e1.playlist[e1.playlistIndex + 1]? = some track := by
        rw [hpl, hpi]
        exact ⟨_, List.getElem?_eq_getElem hnew⟩
      have htm : track ∈ e.playlist := by
        rw [hpl] at ht
        exact List.getElem?_mem ht
      have hpk : env.playOk track = true := hok _ htm
      have hps := play_success env e1 (e1.playlistIndex + 1) _ ht hpk
      cases hplay : Engine.play env e1 (some (e1.playlistIndex + 1)) true with
      | mk b pr =>
        cases pr with
        | mk e2 rs2 =>
          rw [hplay] at hps
          dsimp only at hps
          obtain ⟨hb, hp1, hp2⟩ := hps
          subst hb
          dsimp only
          refine ⟨hp1.trans hpl, ?_⟩
          rw [hp2, hpi]
          exact (Nat.mod_eq_of_lt hnew).symm
    · simp only [hlt, if_false, if_true]
      have hi : e.playlistIndex = e.playlist.length - 1 := by
        rw [hpl, hpi] at hlt; omega
      have h0 : (0 : Nat) < e1.playlist.length := by rw [hpl]; exact hlen
      obtain ⟨track, ht⟩ : ∃ track, e1.playlist[0]? = some track := by
        rw [hpl]
        exact ⟨_, List.getElem?_eq_getElem hlen⟩
      have htm : track ∈ e.playlist := by
        rw [hpl] at ht
        exact List.getElem?_mem ht
      have hpk : env.playOk track = true := hok _ htm
      have hps := play_success env e1 0 _ ht hpk
      cases hplay : Engine.play env e1 (some 0) true with
      | mk b pr =>
        cases pr with
        | mk e2 rs2 =>
          rw [hplay] at hps
          dsimp only at hps
          obtain ⟨hb, hp1, hp2⟩ := hps
          subst hb
          dsimp only
          refine ⟨hp1.trans hpl, ?_⟩
          rw [hp2]
          have hlast : e.playlistIndex + 1 = e.playlist.length := by omega
          rw [hlast, Nat.mod_self]
  have hfuel : ∃ k, e.playlist.length = k + 1 := ⟨e.playlist.length - 1, by omega⟩
  obtain ⟨k, hk⟩ := hfuel
  unfold Engine.processCmd
  rw [he1]
  simp only
  unfold Engine.moveAndPlayNext
  have hne : ¬ ({ e with sentPlaylistIndex := none } : Engine).playlist.length = 0 := by
    simp only
    omega
  rw [if_neg hne]
  have hlen1 : ({ e with sentPlaylistIndex := none } : Engine).playlist.length = k + 1 := hk
  rw [hlen1]
  have hloop := hnext { e with sentPlaylistIndex := none } rfl rfl k
  rw [hk] at hloop
  cases hm : Engine.moveNextLoop env { e with sentPlaylistIndex := none } true true (k + 1) with
  | mk ok pr =>
    rw [hm] at hloop
    exact hloop

/-- C5 (confirmed): for a non-empty playlist in which every track plays
successfully, after `N` `Next` commands (which the engine runs with
`wrap = true`) starting from current index `i < |playlist|`, the
current playlist index is `(i + N) mod |playlist|`. -/
theorem c5_next_mod (env : PlayerEnv) (e : Engine) (N : Nat)
    (hok : ∀ t ∈ e.playlist, env.playOk t = true)
    (hidx : e.playlistIndex < e.playlist.length) :
    (Engine.runCmds env e (List.replicate N .next)).1.playlistIndex
      = (e.playlistIndex + N) % e.playlist.length := by
  induction N generalizing e with
  | zero =>
    simpa [Engine.runCmds] using (Nat.mod_eq_of_lt hidx).symm
  | succ n ih =>
    have hlen : 0 < e.playlist.length := lt_of_le_of_lt (Nat.zero_le _) hidx
    have h1 := processCmd_next env e hok hidx
    rw [List.replicate_succ]
    cases hp : Engine.processCmd env e .next with
    | mk e1 rs =>
      rw [hp] at h1
      simp only [Engine.runCmds, hp]
      have hok1 : ∀ t ∈ e1.playlist, env.playOk t = true := by
        rw [h1.1]; exact hok
      have hidx1 : e1.playlistIndex < e1.playlist.length := by
        rw [h1.1, h1.2]
        exact Nat.mod_lt _ hlen
      have hrec := ih e1 hok1 hidx1
      cases hr : Engine.runCmds env e1 (List.replicate n .next) with
      | mk e2 rs2 =>
        rw [hr] at hrec
        simp only
        rw [hrec, h1.1, h1.2, Nat.mod_add_mod]
        congr 1
        omega

theorem c5_next_mod_witness :
    (Engine.runCmds ⟨fun _ => true, fun _ => true⟩
        ⟨[⟨[97], none⟩, ⟨[98], none⟩], 0, none, false⟩
        (List.replicate 3 .next)).1.playlistIndex
      = (0 + 3) % 2 :=
  c5_next_mod ⟨fun _ => true, fun _ => true⟩
    ⟨[⟨[97], none⟩, ⟨[98], none⟩], 0, none, false⟩ 3
    (by intro t ht; rfl) (by decide)

/-- C4.  The original claim is false: `stop()` clears the engine's
last-sent-index tracking and every `Play` command stops before playing,
so two successive `Play{0}` commands each emit `NewPlaylistIndex{0}`
while the current playlist index stays 0 throughout (the index after
each command is 0 and it starts at 0). -/
theorem c4_counterexample :
    ((Engine.runCmds ⟨fun _ => true, fun _ => true⟩ ⟨[⟨[97], none⟩], 0, none, false⟩
        [.play (some 0), .play (some 0)]).2.countP
      (fun r => match r with
        | .newPlaylistIndex 0 _ _ => true
        | _ => false)) = 2
    ∧ Engine.indexTrace ⟨fun _ => true, fun _ => true⟩ ⟨[⟨[97], none⟩], 0, none, false⟩
        [.play (some 0), .play (some 0)] = [0, 0] := by
  decide

/-- C4 (amended): `send_playlist_index` emits `NewPlaylistIndex` at
most once per change of the tracked index: it never emits when the
current index equals the last index it sent, and after an emission the
emitted index is recorded; the guarantee is only per tracking epoch,
because `stop()` (run by every track-changing command) resets the
tracking and `load_meta` emits `NewPlaylistIndex` without consulting
it, so an unchanged index is re-announced across such commands. -/
theorem c4_send_playlist_index :
    (∀ (e : Engine) (u : Bool), e.sentPlaylistIndex = some e.playlistIndex →
      Engine.sendPlaylistIndex e u = (e, []))
    ∧ (∀ (e : Engine) (u : Bool) (e' : Engine) (rs : List PlayerResp),
      Engine.sendPlaylistIndex e u = (e', rs) → rs ≠ [] →
      e.sentPlaylistIndex ≠ some e.playlistIndex
      ∧ e'.sentPlaylistIndex = some e.playlistIndex
      ∧ ∃ track, rs = [.newPlaylistIndex e.playlistIndex track u]) := by
  constructor
  · intro e u h
    unfold Engine.sendPlaylistIndex
    rw [h]
    simp
  · intro e u e' rs heq hrs
    unfold Engine.sendPlaylistIndex Engine.sendPlaylistIndex.sendUnchecked at heq
    cases hs : e.sentPlaylistIndex with
    | none =>
      rw [hs] at heq
      cases ht : e.playlist[e.playlistIndex]? with
      | none =>
        rw [ht] at heq
        cases heq
        exact absurd rfl hrs
      | some track =>
        rw [ht] at heq
        cases heq
        exact ⟨by simp [hs], rfl, track, rfl⟩
    | some i =>
      rw [hs] at heq
      simp only [] at heq
      by_cases h : i = e.playlistIndex
      · rw [if_pos h] at heq
        cases heq
        exact absurd rfl hrs
      · rw [if_neg h] at heq
        cases ht : e.playlist[e.playlistIndex]? with
        | none =>
          rw [ht] at heq
          cases heq
          exact absurd rfl hrs
        | some track =>
          rw [ht] at heq
          cases heq
          refine ⟨?_, rfl, track, rfl⟩
          intro hc
          exact h (by injection hc)

theorem c4_send_playlist_index_witness :
    Engine.sendPlaylistIndex ⟨[], 5, some 5, false⟩ true = (⟨[], 5, some 5, false⟩, []) :=
  c4_send_playlist_index.1 ⟨[], 5, some 5, false⟩ true rfl

theorem trackIndexScan_snoc_pos (l : List CueTrack) (a : CueTrack) (p : Rat)
    (h : a.start ≤ p) :
    trackIndexScan (l ++ [a]) p = a.index := by
  unfold trackIndexScan
  rw [List.reverse_append]
  simp only [List.reverse_cons, List.reverse_nil, List.nil_append, List.singleton_append]
  rw [List.find?_cons_of_pos _ (by simpa using h)]

theorem trackIndexScan_snoc_neg (l : List CueTrack) (a : CueTrack) (p : Rat)
    (h : ¬ a.start ≤ p) (hne : l ≠ []) :
    trackIndexScan (l ++ [a]) p = trackIndexScan l p := by
  unfold trackIndexScan
  rw [List.reverse_append]
  simp only [List.reverse_cons, List.reverse_nil, List.nil_append, List.singleton_append]
  rw [List.find?_cons_of_neg _ (by simpa using h)]
  cases hf : l.reverse.find? (fun t => p ≥ t.start) with
  | some t => rfl
  | none =>
    cases l with
    | nil => exact absurd rfl hne
    | cons x xs => rfl

theorem trackIndexScan_mem (l : List CueTrack) (p : Rat) (hne : l ≠ []) :
    ∃ t ∈ l, trackIndexScan l p = t.index := by
  unfold trackIndexScan
  cases hf : l.reverse.find? (fun t => p ≥ t.start) with
  | some t => exact ⟨t, List.mem_reverse.mp (List.mem_of_find?_eq_some hf), rfl⟩
  | none =>
    cases l with
    | nil => exact absurd rfl hne
    | cons x xs => exact ⟨x, List.mem_cons_self x xs, rfl⟩

theorem trackIndexScan_last (l : List CueTrack) (p : Rat)
    (hsort : l.Pairwise (fun a b => a.start < b.start))
    (hex : ∃ t ∈ l, t.start ≤ p) :
    ∃ t ∈ l, t.start ≤ p ∧ trackIndexScan l p = t.index ∧
      ∀ u ∈ l, u.start ≤ p → u.start ≤ t.start := by
  induction l using List.reverseRecOn with
  | nil =>
    obtain ⟨t, ht, _⟩ := hex
    exact absurd ht (List.not_mem_nil t)
  | append_singleton l a ih =>
    obtain ⟨hsl, _, hra⟩ := List.pairwise_append.mp hsort
    have hra' : ∀ x ∈ l, x.start < a.start := fun x hx =>
      hra x hx a (List.mem_singleton_self a)
    by_cases hap : a.start ≤ p
    · refine ⟨a, List.mem_append_right l (List.mem_singleton_self a), hap,
        trackIndexScan_snoc_pos l a p hap, ?_⟩
      intro u hu hup
      rcases List.mem_append.mp hu with hul | hua
      · exact (hra' u hul).le
      · rw [List.mem_singleton.mp hua]
    · obtain ⟨t, htm, htp⟩ := hex
      rcases List.mem_append.mp htm with htl | hta
      · have hne : l ≠ [] := List.ne_nil_of_mem htl
        obtain ⟨t', ht'm, ht'p, ht'eq, ht'last⟩ := ih hsl ⟨t, htl, htp⟩
        refine ⟨t', List.mem_append_left _ ht'm, ht'p, ?_, ?_⟩
        · rw [trackIndexScan_snoc_neg l a p hap hne]
          exact ht'eq
        · intro u hu hup
          rcases List.mem_append.mp hu with hul | hua
          · exact ht'last u hul hup
          · rw [List.mem_singleton.mp hua] at hup
            exact absurd hup hap
      · rw [List.mem_singleton.mp hta] at htp
        exact absurd htp hap

theorem trackIndexScan_no_track (l : List CueTrack) (p : Rat)
    (h : ∀ t ∈ l, ¬ t.start ≤ p) :
    trackIndexScan l p = ((l.head?).map (·.index)).getD 0 := by
  unfold trackIndexScan
  rw [List.find?_eq_none.mpr (fun t ht => by
    simpa using h t (List.mem_reverse.mp ht))]

theorem trackIndexScan_mono (l : List CueTrack)
    (hsort : l.Pairwise (fun a b => a.start < b.start))
    (hidx : l.Pairwise (fun a b => a.index ≤ b.index))
    (p q : Rat) (hpq : p ≤ q) :
    trackIndexScan l p ≤ trackIndexScan l q := by
  induction l using List.reverseRecOn with
  | nil => exact le_refl _
  | append_singleton l a ih =>
    obtain ⟨hsl, _, _⟩ := List.pairwise_append.mp hsort
    obtain ⟨hil, _, hia⟩ := List.pairwise_append.mp hidx
    have hia' : ∀ x ∈ l, x.index ≤ a.index := fun x hx =>
      hia x hx a (List.mem_singleton_self a)
    by_cases hq : a.start ≤ q
    · rw [trackIndexScan_snoc_pos l a q hq]
      by_cases hp : a.start ≤ p
      · rw [trackIndexScan_snoc_pos l a p hp]
      · rcases eq_or_ne l [] with hnil | hne
        · subst hnil
          simp only [List.nil_append]
          obtain ⟨t, tmem, teq⟩ := trackIndexScan_mem [a] p (by simp)
          rw [List.mem_singleton.mp tmem] at teq
          rw [teq]
        · rw [trackIndexScan_snoc_neg l a p hp hne]
          obtain ⟨t, tmem, teq⟩ := trackIndexScan_mem l p hne
          rw [teq]
          exact hia' t tmem
    · have hp : ¬ a.start ≤ p := fun hc => hq (hc.trans hpq)
      rcases eq_or_ne l [] with hnil | hne
      · subst hnil
        simp only [List.nil_append]
        rw [trackIndexScan_no_track [a] p
            (by intro t ht; rw [List.mem_singleton.mp ht]; exact hp),
          trackIndexScan_no_track [a] q
            (by intro t ht; rw [List.mem_singleton.mp ht]; exact hq)]
      · rw [trackIndexScan_snoc_neg l a p hp hne, trackIndexScan_snoc_neg l a q hq hne]
        exact ih hsl hil

theorem trackIndexScan_boundary (l : List CueTrack)
    (hsort : l.Pairwise (fun a b => a.start < b.start)) :
    ∀ t ∈ l, trackIndexScan l t.start = t.index := by
  induction l using List.reverseRecOn with
  | nil => intro t ht; exact absurd ht (List.not_mem_nil t)
  | append_singleton l a ih =>
    obtain ⟨hsl, _, hra⟩ := List.pairwise_append.mp hsort
    intro t ht
    rcases List.mem_append.mp ht with htl | hta
    · have hlt : t.start < a.start := hra t htl a (List.mem_singleton_self a)
      rw [trackIndexScan_snoc_neg l a t.start (not_le.mpr hlt) (List.ne_nil_of_mem htl)]
      exact ih hsl t htl
    · rw [List.mem_singleton.mp hta]
      exact trackIndexScan_snoc_pos l a a.start (le_refl _)

/-- C7.  The original claim is false when the queried position precedes
every track's start: for the single-track sheet with start 10 (starts
trivially ascending), `track_index_by_position 5` returns the first
track's id even though no track's start is `≤ 5`, so it does not return
"the index of the last track whose start ≤ p" (no such track exists). -/
theorem c7_counterexample :
    CueSheet.trackIndexByPosition ⟨[⟨1, 10, none, TrackMeta.default⟩], [102]⟩ 5 = 1
    ∧ ¬ ∃ t ∈ (⟨[⟨1, 10, none, TrackMeta.default⟩], [102]⟩ : CueSheet).tracks,
        t.start ≤ 5 := by
  constructor
  · decide
  · decide

/-- C7 (amended): for every CueSheet whose track start times are
strictly ascending and whose track ids are ascending (as
`CueSheet::new` produces), `track_index_by_position(p)` returns the id
of the last track whose start is `≤ p` whenever such a track exists,
and the first track's id when `p` precedes every start; it is
monotonically non-decreasing in `p`, and when `p` equals some track's
start it returns that track's id. -/
theorem c7_track_index_by_position (s : CueSheet)
    (hsort : s.tracks.Pairwise (fun a b => a.start < b.start))
    (hidx : s.tracks.Pairwise (fun a b => a.index ≤ b.index)) :
    (∀ p : Rat, (∃ t ∈ s.tracks, t.start ≤ p) →
      ∃ t ∈ s.tracks, t.start ≤ p ∧ s.trackIndexByPosition p = t.index ∧
        ∀ u ∈ s.tracks, u.start ≤ p → u.start ≤ t.start)
    ∧ (∀ p : Rat, (∀ t ∈ s.tracks, ¬ t.start ≤ p) →
      s.trackIndexByPosition p = ((s.tracks.head?).map (·.index)).getD 0)
    ∧ (∀ p q : Rat, p ≤ q → s.trackIndexByPosition p ≤ s.trackIndexByPosition q)
    ∧ (∀ t ∈ s.tracks, s.trackIndexByPosition t.start = t.index) := by
  refine ⟨?_, ?_, ?_, ?_⟩
  · intro p hex
    exact trackIndexScan_last s.tracks p hsort hex
  · intro p hnone
    exact trackIndexScan_no_track s.tracks p hnone
  · intro p q hpq
    exact trackIndexScan_mono s.tracks hsort hidx p q hpq
  · intro t ht
    exact trackIndexScan_boundary s.tracks hsort t ht

theorem c7_track_index_by_position_witness :
    CueSheet.trackIndexByPosition
        ⟨[⟨1, 0, some 10, TrackMeta.default⟩, ⟨2, 10, none, TrackMeta.default⟩], [102]⟩
        ((⟨2, 10, none, TrackMeta.default⟩ : CueTrack).start)
      = (⟨2, 10, none, TrackMeta.default⟩ : CueTrack).index :=
  (c7_track_index_by_position
      ⟨[⟨1, 0, some 10, TrackMeta.default⟩, ⟨2, 10, none, TrackMeta.default⟩], [102]⟩
      (by decide) (by decide)).2.2.2
    ⟨2, 10, none, TrackMeta.default⟩ (by decide)

/-- C3 (confirmed): when a Stream is open with a CUE sheet for the same
source file (the factory already holding the sheet for the requested
path, as it does once that CUE is playing) and the requested track's
index is the current index plus one, `Decoder::play` succeeds without
reopening, seeking or clearing: the stream, ring buffer, position,
packet metadata, CUE sheet, factory, file/track metadata and
wait-empty-buffer flag are unchanged, and only the current track, the
at-end flag and the pending new-track metadata are updated. -/
theorem c3_gapless_frame (env : DecoderEnv) (d : Decoder) (t : Track)
    (newSheet curSheet : CueSheet) (st : StreamState) (curTrack : Track) (curIndex : Nat)
    (hfac : d.cueFactory.get t.filename = some (some newSheet))
    (hstream : d.stream = some st)
    (hsheet : d.cueSheet = some curSheet)
    (hsame : newSheet.sourceFilename = curSheet.sourceFilename)
    (htrack : d.track = some curTrack)
    (hti : t.index = some (curIndex + 1))
    (hci : curTrack.index = some curIndex) :
    ∃ d', Decoder.play env d t = (.ok, d')
      ∧ d'.stream = d.stream ∧ d'.buf = d.buf
      ∧ d'.position = d.position ∧ d'.packetMeta = d.packetMeta
      ∧ d'.previousPacketMeta = d.previousPacketMeta
      ∧ d'.cueSheet = d.cueSheet ∧ d'.cueFactory = d.cueFactory
      ∧ d'.fileMeta = d.fileMeta ∧ d'.trackMeta = d.trackMeta
      ∧ d'.waitEmptyBuf = d.waitEmptyBuf
      ∧ d'.track = some t ∧ d'.atEnd = false
      ∧ d'.newTrackMeta = (match d.fileMeta with
          | some fm => newSheet.trackMeta (curIndex + 1) fm
          | none => d.newTrackMeta) := by
  have hg : CueFactory.getOrNew ⟨env.parseCue⟩ d.cueFactory t.filename
      = (.ok (some newSheet), d.cueFactory, 0) := by
    unfold CueFactory.getOrNew
    rw [hfac]
  have hplay : Decoder.play env d t = (.ok,
      { d with
        track := some t
        atEnd := false
        newTrackMeta :=
          match d.fileMeta with
          | some fm => newSheet.trackMeta (curIndex + 1) fm
          | none => d.newTrackMeta }) := by
    unfold Decoder.play Decoder.sheetForTrack
    simp only [hti, hg, hstream, hsheet, hsame, htrack, hci, Option.some_bind]
    cases hfm : d.fileMeta <;> simp [hfm]
  exact ⟨_, hplay, rfl, rfl, rfl, rfl, rfl, rfl, rfl, rfl, rfl, rfl, rfl, rfl, rfl⟩

theorem c3_gapless_frame_witness :
    ∃ d', Decoder.play ⟨fun _ => .error (), fun _ => .error ()⟩
        { Decoder.new with
          stream := some ⟨[], 0, none⟩
          cueSheet := some ⟨[⟨1, 0, some 1, TrackMeta.default⟩,
            ⟨2, 1, none, TrackMeta.default⟩], [102]⟩
          track := some ⟨[99], some 1⟩
          cueFactory := ⟨[([99], some ⟨[⟨1, 0, some 1, TrackMeta.default⟩,
            ⟨2, 1, none, TrackMeta.default⟩], [102]⟩)]⟩ }
        ⟨[99], some 2⟩ = (.ok, d')
      ∧ d'.buf = ([] : List Rat) ∧ d'.track = some (⟨[99], some 2⟩ : Track) := by
  obtain ⟨d', h1, _, hbuf, _, _, _, _, _, _, _, _, htr, _, _⟩ :=
    c3_gapless_frame ⟨fun _ => .error (), fun _ => .error ()⟩
      { Decoder.new with
        stream := some ⟨[], 0, none⟩
        cueSheet := some ⟨[⟨1, 0, some 1, TrackMeta.default⟩,
          ⟨2, 1, none, TrackMeta.default⟩], [102]⟩
        track := some ⟨[99], some 1⟩
        cueFactory := ⟨[([99], some ⟨[⟨1, 0, some 1, TrackMeta.default⟩,
          ⟨2, 1, none, TrackMeta.default⟩], [102]⟩)]⟩ }
      ⟨[99], some 2⟩
      ⟨[⟨1, 0, some 1, TrackMeta.default⟩, ⟨2, 1, none, TrackMeta.default⟩], [102]⟩
      ⟨[⟨1, 0, some 1, TrackMeta.default⟩, ⟨2, 1, none, TrackMeta.default⟩], [102]⟩
      ⟨[], 0, none⟩ ⟨[99], some 1⟩ 1
      (by decide) rfl rfl rfl rfl rfl rfl
  exact ⟨d', h1, hbuf, htr⟩

/-- The C1 invariant: the ring buffer stays under the soft stop plus
one packet, and every packet the current stream can still deliver is
bounded. -/
def DecInv (K : Nat) (d : Decoder) : Prop :=
  d.buf.length ≤ BUFFER_SOFT_STOP - 1 + K
  ∧ ∀ st, d.stream = some st → packetsBounded K st

theorem seek_packets (st : StreamState) (pos : Rat) :
    (st.seek pos).2.packets = st.packets := rfl

theorem setTrackMeta_buf_stream (d : Decoder) (m : Option TrackMeta) :
    (d.setTrackMeta m).buf = d.buf ∧ (d.setTrackMeta m).stream = d.stream := by
  unfold Decoder.setTrackMeta
  cases m with
  | none => exact ⟨rfl, rfl⟩
  | some m => exact ⟨rfl, rfl⟩

theorem readPacket_ok (st st' : StreamState) (pm : StreamPacketMeta)
    (h : st.readPacket = .ok (pm, st')) :
    st'.packets = st.packets
    ∧ ∃ p, st.packets[st.cursor]? = some p ∧ st'.buffer = some p.samples := by
  unfold StreamState.readPacket at h
  cases hp : st.packets[st.cursor]? with
  | none => rw [hp] at h; exact absurd h (by simp)
  | some p =>
    rw [hp] at h
    cases h
    exact ⟨rfl, p, rfl, rfl⟩

theorem seekTo_inv (K : Nat) (d : Decoder) (pos : Rat) (hinv : DecInv K d) :
    DecInv K (d.seekTo pos).2 := by
  obtain ⟨hbuf, hstr⟩ := hinv
  have habs : ∀ (q start : Rat), DecInv K (Decoder.seekTo.seekAbs d q start).2 := by
    intro q start
    unfold Decoder.seekTo.seekAbs
    cases hst : d.stream with
    | none => exact ⟨hbuf, hstr⟩
    | some st =>
      dsimp only
      refine ⟨by simp, ?_⟩
      intro st0 h0
      have h1 : some (st.seek q).2 = some st0 := h0
      cases h1
      intro p hp
      rw [seek_packets] at hp
      exact hstr st hst p hp
  unfold Decoder.seekTo
  cases hsi : d.sheetAndIndex with
  | none =>
    dsimp only
    exact habs _ _
  | some si =>
    obtain ⟨sheet, index⟩ := si
    dsimp only
    cases hts : sheet.trackStart index with
    | none => exact ⟨hbuf, hstr⟩
    | some start =>
      dsimp only
      exact habs _ _

theorem stop_inv (K : Nat) (d : Decoder) : DecInv K d.stop := by
  refine ⟨by simp [Decoder.stop], ?_⟩
  intro st h
  simp [Decoder.stop] at h

theorem readStream_inv (K : Nat) (d : Decoder) (hinv : DecInv K d) :
    DecInv K d.readStream.2 := by
  obtain ⟨hbuf, hstr⟩ := hinv
  unfold Decoder.readStream
  by_cases hguard : (d.atEnd || !d.canReadMore) = true
  · rw [if_pos hguard]
    exact ⟨hbuf, hstr⟩
  · rw [if_neg hguard]
    have hlt : d.buf.length < BUFFER_SOFT_STOP := by
      simp only [Bool.or_eq_true, not_or] at hguard
      have h2 : d.canReadMore = true := by
        cases hcr : d.canReadMore with
        | true => rfl
        | false => exact absurd (by simp [hcr]) hguard.2
      simpa [Decoder.canReadMore, Decoder.bufferLen] using h2
    cases hst : d.stream with
    | none => exact ⟨hbuf, hstr⟩
    | some st =>
      dsimp only
      by_cases hwait : d.waitEmptyBuf = true
      · rw [if_pos hwait]
        by_cases hz : d.bufferLen ≠ 0
        · rw [if_pos hz]
          exact ⟨hbuf, hstr⟩
        · rw [if_neg hz]
          exact ⟨hbuf, fun st0 h0 => hstr st0 (hst.trans h0)⟩
      · rw [if_neg hwait]
        cases hrp : st.readPacket with
        | error e =>
          exact ⟨hbuf, fun st0 h0 => hstr st0 (hst.trans h0)⟩
        | ok pr =>
          obtain ⟨pm, st'⟩ := pr
          dsimp only
          obtain ⟨hpk, p, hp, hbuf'⟩ := readPacket_ok st st' pm hrp
          have hstOK : packetsBounded K st := hstr st hst
          have hst'OK : packetsBounded K st' := by
            intro q hq
            rw [hpk] at hq
            exact hstOK q hq
          have hsamp : p.samples.length ≤ K :=
            hstOK p (List.getElem?_mem hp)
          by_cases hfc : Decoder.isFormatChange d.previousPacketMeta pm = true
          · rw [if_pos hfc]
            obtain ⟨hb2, hs2⟩ := setTrackMeta_buf_stream
              { d with previousPacketMeta := none, stream := some st', waitEmptyBuf := true }
              pm.trackMeta
            refine ⟨?_, ?_⟩
            · rw [hb2]
              exact hbuf
            · intro st0 h0
              rw [hs2] at h0
              have h1 : some st' = some st0 := h0
              cases h1
              exact hst'OK
          · rw [if_neg hfc]
            have hw : st'.write d.buf = .ok (p.samples.length, d.buf ++ p.samples) := by
              unfold StreamState.write
              rw [hbuf']
            simp only [hw]
            obtain ⟨hb3, hs3⟩ := setTrackMeta_buf_stream
              { d with previousPacketMeta := none, stream := some st',
                       buf := d.buf ++ p.samples,
                       packetMeta := some { pm with trackMeta := none } }
              pm.trackMeta
            have hmain : DecInv K (Decoder.setTrackMeta
                { d with previousPacketMeta := none, stream := some st',
                         buf := d.buf ++ p.samples,
                         packetMeta := some { pm with trackMeta := none } }
                pm.trackMeta) := by
              refine ⟨?_, ?_⟩
              · rw [hb3]
                have hlen : (d.buf ++ p.samples).length = d.buf.length + p.samples.length :=
                  List.length_append d.buf p.samples
                have : d.buf.length + p.samples.length ≤ BUFFER_SOFT_STOP - 1 + K := by
                  unfold BUFFER_SOFT_STOP at hlt ⊢
                  omega
                exact hlen ▸ this
              · intro st0 h0
                rw [hs3] at h0
                have h1 : some st' = some st0 := h0
                cases h1
                exact hst'OK
            split
            · split
              · split
                · exact ⟨hmain.1, hmain.2⟩
                · exact ⟨hmain.1, hmain.2⟩
              · exact ⟨hmain.1, hmain.2⟩
            · exact ⟨hmain.1, hmain.2⟩

theorem sheetForTrack_buf_stream (env : CueEnv) (d : Decoder) (t : Track) :
    (Decoder.sheetForTrack env d t).2.buf = d.buf
    ∧ (Decoder.sheetForTrack env d t).2.stream = d.stream := by
  unfold Decoder.sheetForTrack
  cases t.index with
  | none => exact ⟨rfl, rfl⟩
  | some i =>
    rcases hg : d.cueFactory.getOrNew env t.filename with ⟨r, f, n⟩
    cases r with
    | panic => simp [hg]
    | err => simp [hg]
    | ok sheet => cases sheet <;> simp [hg]

theorem play_inv (K : Nat) (env : DecoderEnv) (henv : envBounded K env)
    (d : Decoder) (t : Track) (hinv : DecInv K d) :
    DecInv K (Decoder.play env d t).2 := by
  obtain ⟨hbuf, hstr⟩ := hinv
  have hsft := sheetForTrack_buf_stream ⟨env.parseCue⟩ d t
  unfold Decoder.play
  rcases hsf : Decoder.sheetForTrack ⟨env.parseCue⟩ d t with ⟨⟨r, sheetOpt⟩, d1⟩
  rw [hsf] at hsft
  obtain ⟨hb1, hs1⟩ := hsft
  have hinv1 : DecInv K d1 := by
    refine ⟨by rw [hb1]; exact hbuf, ?_⟩
    intro st h
    rw [hs1] at h
    exact hstr st h
  have hseeknew : ∀ (newSheet : CueSheet),
      DecInv K (Decoder.play.playNewSheet env d1 t newSheet).2 := by
    intro newSheet
    unfold Decoder.play.playNewSheet
    cases hop : env.openStream newSheet.sourceFilename with
    | error e => exact hinv1
    | ok st =>
      dsimp only
      have hstK : packetsBounded K st := henv _ _ hop
      have hinv2 : DecInv K { d1 with
          stream := some st
          trackMeta := none
          fileMeta := none
          track := some t
          cueSheet := some newSheet } := by
        refine ⟨hinv1.1, ?_⟩
        intro st0 h0
        have h1 : some st = some st0 := h0
        cases h1
        exact hstK
      have hseek := seekTo_inv K _ 0 hinv2
      rcases hs : Decoder.seekTo { d1 with
          stream := some st
          trackMeta := none
          fileMeta := none
          track := some t
          cueSheet := some newSheet } 0 with ⟨res, d2⟩
      rw [hs] at hseek
      cases res with
      | error e => exact hseek
      | ok v => exact ⟨hseek.1, hseek.2⟩
  have hseeksame : ∀ (newSheet : CueSheet) (newIndex : Nat),
      DecInv K (Decoder.play.playSameSheetSeek d1 t newSheet newIndex).2 := by
    intro newSheet newIndex
    unfold Decoder.play.playSameSheetSeek
    dsimp only
    have hinv2 : DecInv K { d1 with trackMeta := none, track := some t } := by
      refine ⟨hinv1.1, ?_⟩
      intro st h
      exact hinv1.2 st h
    have hseek := seekTo_inv K _ 0 hinv2
    rcases hs : Decoder.seekTo { d1 with trackMeta := none, track := some t } 0
      with ⟨res, d2⟩
    rw [hs] at hseek
    cases res with
    | error e => exact hseek
    | ok v =>
      dsimp only
      cases hfm : d2.fileMeta with
      | none => exact ⟨hseek.1, hseek.2⟩
      | some fm => exact ⟨hseek.1, hseek.2⟩
  cases r with
  | panic =>
    dsimp only
    exact hinv1
  | err =>
    dsimp only
    exact hinv1
  | ok =>
    dsimp only
    cases sheetOpt with
    | some newSheet =>
      cases hti : t.index with
      | none =>
        dsimp only
        cases hpm : d1.packetMeta with
        | some meta =>
          dsimp only
          cases hop : env.openStream t.filename with
          | ok st =>
            dsimp only
            refine ⟨hinv1.1, ?_⟩
            intro st0 h0
            have h1 : some st = some st0 := h0
            cases h1
            exact henv _ _ hop
          | error e => exact ⟨hinv1.1, fun st h => hinv1.2 st h⟩
        | none =>
          dsimp only
          cases hop : env.openStream t.filename with
          | ok st =>
            dsimp only
            refine ⟨hinv1.1, ?_⟩
            intro st0 h0
            have h1 : some st = some st0 := h0
            cases h1
            exact henv _ _ hop
          | error e => exact ⟨hinv1.1, fun st h => hinv1.2 st h⟩
      | some newIndex =>
        dsimp only
        cases hst1 : d1.stream with
        | none => exact hseeknew newSheet
        | some st =>
          cases hcs1 : d1.cueSheet with
          | none => exact hseeknew newSheet
          | some curSheet =>
            dsimp only
            by_cases hsame : newSheet.sourceFilename = curSheet.sourceFilename
            · rw [if_pos hsame]
              cases hcti : d1.track.bind (fun tr => tr.index) with
              | none => exact hseeksame newSheet newIndex
              | some curIndex =>
                dsimp only
                by_cases hadj : newIndex = curIndex + 1
                · rw [if_pos hadj]
                  cases hfm : d1.fileMeta with
                  | none => exact ⟨hinv1.1, fun st0 h0 => hinv1.2 st0 h0⟩
                  | some fm => exact ⟨hinv1.1, fun st0 h0 => hinv1.2 st0 (hst1.trans h0)⟩
                · rw [if_neg hadj]
                  exact hseeksame newSheet newIndex
            · rw [if_neg hsame]
              exact hseeknew newSheet
    | none =>
      dsimp only
      cases hpm : d1.packetMeta with
      | some meta =>
        dsimp only
        cases hop : env.openStream t.filename with
        | ok st =>
          dsimp only
          refine ⟨hinv1.1, ?_⟩
          intro st0 h0
          have h1 : some st = some st0 := h0
          cases h1
          exact henv _ _ hop
        | error e => exact ⟨hinv1.1, fun st h => hinv1.2 st h⟩
      | none =>
        dsimp only
        cases hop : env.openStream t.filename with
        | ok st =>
          dsimp only
          refine ⟨hinv1.1, ?_⟩
          intro st0 h0
          have h1 : some st = some st0 := h0
          cases h1
          exact henv _ _ hop
        | error e => exact ⟨hinv1.1, fun st h => hinv1.2 st h⟩

theorem decStep_inv (K : Nat) (env : DecoderEnv) (henv : envBounded K env)
    (d : Decoder) (op : DecOp) (hinv : DecInv K d) :
    DecInv K (decStep env d op) := by
  cases op with
  | play t => exact play_inv K env henv d t hinv
  | readStream => exact readStream_inv K d hinv
  | seekTo pos => exact seekTo_inv K d pos hinv
  | stop => exact stop_inv K d

theorem decRun_inv (K : Nat) (env : DecoderEnv) (henv : envBounded K env)
    (d : Decoder) (ops : List DecOp) (hinv : DecInv K d) :
    DecInv K (decRun env d ops) := by
  induction ops generalizing d with
  | nil => exact hinv
  | cons op rest ih =>
    exact ih (decStep env d op) (decStep_inv K env henv d op hinv)

theorem c1CexState_play :
    decStep c1CexEnv Decoder.new (.play ⟨[97], none⟩) = c1CexState 0 := by
  rfl

theorem c1CexState_read (j : Nat) (h : j < 8) :
    decStep c1CexEnv (c1CexState j) .readStream = c1CexState (j + 1) := by
  have hlt : 8192 * j < 60000 := by omega
  have hbuf : List.replicate (8192 * j) (0 : Rat) ++ List.replicate 8192 0
      = List.replicate (8192 * (j + 1)) 0 := by
    rw [← List.replicate_add, Nat.mul_succ]
  have harith : 8192 * (j + 1) = 8192 * j + 8192 := by ring
  simp [decStep, c1CexState, c1CexEnv, Decoder.readStream, Decoder.new, BUFFER_SOFT_STOP,
    Decoder.canReadMore, Decoder.bufferLen, Decoder.setTrackMeta, Decoder.sheetAndIndex,
    Decoder.isFormatChange, StreamState.readPacket, StreamState.write, h, hlt, hbuf, harith,
    Nat.succ_ne_zero, -List.reduceReplicate]

/-- C1.  The hard-cap part of the claim is false: nothing bounds one
packet's contribution, only the soft stop gates reading.  With an
environment whose streams deliver eight packets of 8192 samples each
(a stereo FLAC block of 4096 frames), playing a track and reading the
stream eight times is a legal operation sequence after which the ring
buffer holds 65536 samples, exceeding BUFFER_CAPACITY = 65535: before
the eighth read the buffer holds 57344 < 60000 samples, so the read
proceeds and appends 8192 more. -/
theorem c1_counterexample :
    BUFFER_CAPACITY <
      (decRun c1CexEnv Decoder.new
        [.play ⟨[97], none⟩, .readStream, .readStream, .readStream, .readStream,
          .readStream, .readStream, .readStream, .readStream]).buf.length := by
  have hrun : decRun c1CexEnv Decoder.new
      [.play ⟨[97], none⟩, .readStream, .readStream, .readStream, .readStream,
        .readStream, .readStream, .readStream, .readStream] = c1CexState 8 := by
    simp only [decRun, c1CexState_play]
    rw [c1CexState_read 0 (by omega)]
    norm_num
    rw [c1CexState_read 1 (by omega)]
    norm_num
    rw [c1CexState_read 2 (by omega)]
    norm_num
    rw [c1CexState_read 3 (by omega)]
    norm_num
    rw [c1CexState_read 4 (by omega)]
    norm_num
    rw [c1CexState_read 5 (by omega)]
    norm_num
    rw [c1CexState_read 6 (by omega)]
    norm_num
    rw [c1CexState_read 7 (by omega)]
  rw [hrun]
  simp only [c1CexState, Decoder.new, List.length_replicate, BUFFER_CAPACITY]
  omega

/-- C1 (amended): in every Decoder state reachable from the initial
state by play, read_stream, seek_to and stop, if every packet of every
stream the environment can open holds at most `K` samples then the
ring buffer length never exceeds `BUFFER_SOFT_STOP - 1 + K` (which is
within BUFFER_CAPACITY = 65535 only when `K ≤ 5536`); and read_stream
returns BufferFull without touching the state (in particular without
decoding a packet) whenever the buffer length is at least
BUFFER_SOFT_STOP = 60000. -/
theorem c1_buffer_bound (K : Nat) (env : DecoderEnv) (henv : envBounded K env)
    (ops : List DecOp) :
    (decRun env Decoder.new ops).buf.length ≤ BUFFER_SOFT_STOP - 1 + K
    ∧ ∀ d : Decoder, BUFFER_SOFT_STOP ≤ d.buf.length → d.readStream = (.bufferFull, d) := by
  constructor
  · have hinit : DecInv K Decoder.new := by
      refine ⟨by simp [Decoder.new, BUFFER_SOFT_STOP], ?_⟩
      intro st h
      simp [Decoder.new] at h
    exact (decRun_inv K env henv Decoder.new ops hinit).1
  · intro d h
    have hc : d.canReadMore = false := by
      simp only [Decoder.canReadMore, Decoder.bufferLen]
      simp only [decide_eq_false_iff_not, not_lt]
      exact h
    unfold Decoder.readStream
    rw [if_pos (by rw [hc]; simp)]

theorem c1_buffer_bound_witness :
    (decRun ⟨fun _ => .ok ⟨[⟨[0], 1, 1, none, none⟩], 0, none⟩, fun _ => .error ()⟩
        Decoder.new [.play ⟨[97], none⟩, .readStream]).buf.length
      ≤ BUFFER_SOFT_STOP - 1 + 1
    ∧ ∀ d : Decoder, BUFFER_SOFT_STOP ≤ d.buf.length → d.readStream = (.bufferFull, d) :=
  c1_buffer_bound 1
    ⟨fun _ => .ok ⟨[⟨[0], 1, 1, none, none⟩], 0, none⟩, fun _ => .error ()⟩
    (by
      intro path st h
      have hst : st = ⟨[⟨[0], 1, 1, none, none⟩], 0, none⟩ := by
        cases h
        rfl
      subst hst
      intro p hp
      simp only [List.mem_singleton] at hp
      subst hp
      decide)
    [.play ⟨[97], none⟩, .readStream]

end Konik
